import Mathlib

/-!
# Demiochat+ : the message feed and composition pipeline of `src/App.jsx`

A shallow embedding of the `Chat` and `ChatMessage` components.

* A JavaScript string is a `List Char`.  The operations the components use
  (`trim`, `split` on the one-character separators `/` and `?`, template
  concatenation, `===`, truthiness) act the same way on code points as on
  UTF-16 code units, because the characters they inspect are all in the
  basic plane.
* React state (`useState`) is a record that every handler receives and
  returns.
* Every call that leaves the component (Supabase auth, storage, database,
  realtime, `alert`, `confirm`, `nav`) is logged, in program order, as an
  `Effect`; what the call answers is an argument of the handler.
-/

namespace Demiochat

/-- A JavaScript string. -/
abbrev JSString := List Char

/-- The browser `File` picked in the hidden file input: its name and its bytes. -/
structure FileObj where
  name : JSString
  bytes : List Nat
  deriving DecidableEq, Repr

/-- A row of the `messages` table, with the fields `sendMessage` writes and
`ChatMessage` destructures.  `file` is `null` or a string. -/
structure MessageRecord where
  id : JSString
  author_name : JSString
  message : JSString
  created_at : JSString
  file : Option JSString
  deriving DecidableEq, Repr

/-- The `data.user` object of `supabase.auth.getUser()`, reduced to what the
components read: `user_metadata.username` (absent or a string), the
truthiness of `user_metadata.isDeleted`, and `email_confirmed_at`. -/
structure User where
  username : Option JSString
  isDeleted : Bool
  email_confirmed_at : Option JSString
  deriving DecidableEq, Repr

/-- Calls that leave the component, in the order the code issues them. -/
inductive Effect where
  | preventDefault
  | getUser
  | signOut
  | nav (target : JSString)
  | select (table : JSString)
  | subscribe (channel : JSString) (table : JSString)
  | removeChannel (channel : JSString)
  | upload (bucket : JSString) (path : JSString) (file : FileObj)
  | createSignedUrl (bucket : JSString) (path : JSString) (expiresIn : Nat)
  | insert (table : JSString) (record : MessageRecord)
  | delete (table : JSString) (id : JSString)
  | alert (text : JSString)
  | confirm (text : JSString)
  deriving DecidableEq, Repr

/-- The state hooks of `Chat` (lines 180-186); `fileInputValue` is
`fileInput.current.value`. -/
structure ChatState where
  username : JSString
  message : JSString
  messages : List MessageRecord
  file : Option FileObj
  isEmailVerified : Bool
  fileInputValue : JSString
  deriving DecidableEq, Repr

/-- The values of the hooks when `Chat` is first rendered. -/
def ChatState.initial : ChatState :=
  { username := [], message := [], messages := [], file := none,
    isEmailVerified := false, fileInputValue := [] }

/-! ## Strings -/

/-- ECMAScript `WhiteSpace` and `LineTerminator` code points, the ones
`String.prototype.trim` removes. -/
def isJSWhiteSpace (c : Char) : Bool :=
  let n := c.toNat
  n == 0x09 || n == 0x0A || n == 0x0B || n == 0x0C || n == 0x0D || n == 0x20 ||
  n == 0xA0 || n == 0x1680 || (0x2000 ≤ n && n ≤ 0x200A) || n == 0x2028 ||
  n == 0x2029 || n == 0x202F || n == 0x205F || n == 0x3000 || n == 0xFEFF

/-- `s.trim()`. -/
def trim (s : JSString) : JSString :=
  ((s.dropWhile isJSWhiteSpace).reverse.dropWhile isJSWhiteSpace).reverse

/-- `s.split(sep)` for a one-character separator: never an empty array. -/
def split (sep : Char) : JSString → List JSString
  | [] => [[]]
  | c :: cs =>
    if c = sep then [] :: split sep cs
    else
      match split sep cs with
      | [] => [[c]]
      | seg :: rest => (c :: seg) :: rest

/-- `arr.pop()`: the last element, `undefined` on an empty array. -/
def pop {α : Type} (arr : List α) : Option α := arr.getLast?

/-- `arr[0]`: the first element, `undefined` on an empty array. -/
def first {α : Type} (arr : List α) : Option α := arr.head?

/-! ## The Composer: `Chat.sendMessage` (lines 229-272) -/

/-- What `storage.upload` answers: `error` null, `error` set, or the call
throws. -/
inductive UploadOutcome where
  | ok
  | error (message : JSString)
  | rejected
  deriving DecidableEq, Repr

/-- What `storage.createSignedUrl` answers: `data.signedUrl` with `error`
null, `error` set, or the call throws (also reading `signedUrl` of a null
`data`). -/
inductive SignOutcome where
  | ok (signedUrl : JSString)
  | error (message : JSString)
  | rejected
  deriving DecidableEq, Repr

/-- Everything `sendMessage` obtains from outside the component during one
run. -/
structure SendEnv where
  getUserRejected : Bool
  pathUuid : JSString
  upload : UploadOutcome
  sign : SignOutcome
  idUuid : JSString
  now : JSString
  insertRejected : Bool
  deriving DecidableEq, Repr

/-- The storage bucket name. -/
def bucket : JSString := "demiochatplus-storage".toList

/-- The table name. -/
def messagesTable : JSString := "messages".toList

/-- The template literal of line 239. -/
def storagePath (uuid : JSString) (file : FileObj) : JSString :=
  "files/".toList ++ uuid ++ "-".toList ++ file.name

/-- Lines 261-271: insert the record, then reset the composer. -/
def commit (s : ChatState) (env : SendEnv) (fileUrl : Option JSString)
    (trace : List Effect) : ChatState × List Effect :=
  let record : MessageRecord :=
    { id := env.idUuid, author_name := s.username, message := s.message,
      created_at := env.now, file := fileUrl }
  let trace := trace ++ [Effect.insert messagesTable record]
  if env.insertRejected then (s, trace)
  else ({ s with message := [], file := none, fileInputValue := [] }, trace)

/-- `sendMessage(e)`: the state after the handler has run to its end (or to
the statement that threw) and the calls it made. -/
def sendMessage (s : ChatState) (env : SendEnv) : ChatState × List Effect :=
  let t0 := [Effect.preventDefault, Effect.getUser]
  if env.getUserRejected then (s, t0)
  else if (trim s.message).isEmpty && s.file.isNone then (s, t0)
  else
    match s.file with
    | none => commit s env none t0
    | some file =>
      let path := storagePath env.pathUuid file
      let t1 := t0 ++ [Effect.upload bucket path file]
      match env.upload with
      | UploadOutcome.rejected => (s, t1)
      | UploadOutcome.error msg => (s, t1 ++ [Effect.alert msg])
      | UploadOutcome.ok =>
        let t2 := t1 ++ [Effect.createSignedUrl bucket path 3600]
        match env.sign with
        | SignOutcome.rejected => (s, t2)
        | SignOutcome.error msg => (s, t2 ++ [Effect.alert msg])
        | SignOutcome.ok signedUrl => commit s env (some signedUrl) t2

/-- The records a trace hands to the Message Store insert. -/
def insertedRecords : List Effect → List MessageRecord
  | [] => []
  | Effect.insert _ r :: rest => r :: insertedRecords rest
  | _ :: rest => insertedRecords rest

/-- Is the call a storage upload? -/
def Effect.isUpload : Effect → Bool
  | Effect.upload _ _ _ => true
  | _ => false

/-- Is the call a link-signing request? -/
def Effect.isSign : Effect → Bool
  | Effect.createSignedUrl _ _ _ => true
  | _ => false

/-! ## The Feed Controller: the mount effect of `Chat` (lines 189-223) -/

/-- The operand `user?.user_metadata?.username || "Unknown"` of line 200. -/
def usernameOrUnknown (user : Option User) : JSString :=
  match user.bind (fun u => u.username) with
  | some n => if n.isEmpty then "Unknown".toList else n
  | none => "Unknown".toList

/-- The test `user?.user_metadata?.isDeleted` of line 194. -/
def userIsDeleted (user : Option User) : Bool :=
  match user with
  | some u => u.isDeleted
  | none => false

/-- The value `!!user?.email_confirmed_at` of line 201. -/
def emailConfirmed (user : Option User) : Bool :=
  match user.bind (fun u => u.email_confirmed_at) with
  | some t => !t.isEmpty
  | none => false

/-- The updater of line 216, `(prev) => [...prev, payload.new]`. -/
def appendInsert (prev : List MessageRecord) (payloadNew : MessageRecord) :
    List MessageRecord :=
  prev ++ [payloadNew]

/-- The updater of line 275, `(prev) => prev.filter(msg => msg.id !== id)`. -/
def removeMessage (prev : List MessageRecord) (id : JSString) : List MessageRecord :=
  prev.filter (fun msg => msg.id != id)

/-- Where the asynchronous `initChat` is suspended. -/
inductive InitPc where
  | awaitGetUser
  | awaitSignOut
  | awaitSelect
  | finished
  deriving DecidableEq, Repr

/-- One activation of `Chat`: its hooks, the suspended `initChat`, whether the
component (and with it the realtime subscription) is still mounted, and the
calls made so far. -/
structure Activation where
  chat : ChatState
  pc : InitPc
  mounted : Bool
  trace : List Effect
  deriving DecidableEq, Repr

/-- What the event loop delivers to a mounted `Chat`. -/
inductive ChatEvent where
  | getUserResolved (user : Option User)
  | signOutResolved
  | selectResolved (data : Option (List MessageRecord))
  | feedInsert (payloadNew : MessageRecord)
  | unmount
  deriving DecidableEq, Repr

/-- The name of the realtime channel. -/
def messagesChannel : JSString := "messages-channel".toList

/-- The redirect target of line 196. -/
def accountDeletedTarget : JSString := "/?reason=account_deleted".toList

/-- The effect body at mount: `initChat()` runs up to its first `await`
(line 191), then the channel is subscribed (lines 209-218). -/
def mount : Activation :=
  { chat := ChatState.initial, pc := InitPc.awaitGetUser, mounted := true,
    trace := [Effect.getUser, Effect.subscribe messagesChannel messagesTable] }

/-- A state setter: React drops updates of a component that is unmounted. -/
def Activation.setChat (a : Activation) (f : ChatState → ChatState) : Activation :=
  if a.mounted then { a with chat := f a.chat } else a

/-- `initChat` (lines 190-205), resumed at the `await` it is suspended on by
the answer the event carries. An answer nobody waits for changes nothing. -/
def initChat (a : Activation) : ChatEvent → Activation
  | ChatEvent.getUserResolved user =>
    match a.pc with
    | InitPc.awaitGetUser =>
      if userIsDeleted user then
        { a with pc := InitPc.awaitSignOut, trace := a.trace ++ [Effect.signOut] }
      else
        let a1 := a.setChat (fun c =>
          { c with username := usernameOrUnknown user, isEmailVerified := emailConfirmed user })
        { a1 with pc := InitPc.awaitSelect, trace := a1.trace ++ [Effect.select messagesTable] }
    | _ => a
  | ChatEvent.signOutResolved =>
    match a.pc with
    | InitPc.awaitSignOut =>
      { a with pc := InitPc.finished, trace := a.trace ++ [Effect.nav accountDeletedTarget] }
    | _ => a
  | ChatEvent.selectResolved data =>
    match a.pc with
    | InitPc.awaitSelect =>
      let a1 := a.setChat (fun c => { c with messages := data.getD [] })
      { a1 with pc := InitPc.finished }
    | _ => a
  | _ => a

/-- One turn of the event loop: the listener of lines 215-217 for an insert
event while the channel is open, the cleanup of lines 220-222 at unmount, and
`initChat` for the answers to its calls. -/
def step (a : Activation) : ChatEvent → Activation
  | ChatEvent.feedInsert payloadNew =>
    if a.mounted then
      { a with chat := { a.chat with messages := appendInsert a.chat.messages payloadNew } }
    else a
  | ChatEvent.unmount =>
    if a.mounted then
      { a with mounted := false, trace := a.trace ++ [Effect.removeChannel messagesChannel] }
    else a
  | e => initChat a e

/-- Deliver a sequence of events. -/
def run (a : Activation) (events : List ChatEvent) : Activation :=
  events.foldl step a

/-- The activations a sequence of events passes through, the first one
included. -/
def visited (a : Activation) : List ChatEvent → List Activation
  | [] => [a]
  | e :: es => a :: visited (step a e) es

/-- The `onChange` handler of the textarea (line 317). -/
def setMessage (s : ChatState) (text : JSString) : ChatState :=
  { s with message := text }

/-- The `onChange` handler of the file input (line 309). -/
def setFile (s : ChatState) (file : Option FileObj) : ChatState :=
  { s with file := file }

/-! ## The Message Renderer: `ChatMessage` (lines 118-177) -/

/-- The value `checkIfAuthor` passes to `setIsAuthor` (lines 124-126):
`author_name === data?.user?.user_metadata?.username`. -/
def checkIfAuthor (author_name : JSString) (user : Option User) : Bool :=
  decide (some author_name = user.bind (fun u => u.username))

/-- What `supabase.from("messages").delete().eq("id", id)` answers. -/
inductive DeleteOutcome where
  | ok
  | error (message : JSString)
  | rejected
  deriving DecidableEq, Repr

/-- The confirmation text of line 132. -/
def confirmDeleteText : JSString := "Are you sure you want to delete this message?".toList

/-- `deleteMessage` of the message with the given `id` (lines 131-136), acting
on the hooks of the enclosing `Chat` through the `removeMessage` prop. -/
def deleteMessage (s : ChatState) (id : JSString) (confirmed : Bool)
    (outcome : DeleteOutcome) : ChatState × List Effect :=
  let t0 := [Effect.confirm confirmDeleteText]
  if confirmed then
    let t1 := t0 ++ [Effect.delete messagesTable id]
    match outcome with
    | DeleteOutcome.ok => ({ s with messages := removeMessage s.messages id }, t1)
    | DeleteOutcome.error _ => (s, t1)
    | DeleteOutcome.rejected => (s, t1)
  else (s, t0)

/-- The expression `file.split("/").pop().split("?")[0]` of line 170;
`none` stands for a `TypeError` on `undefined`. -/
def fileLabel (file : JSString) : Option JSString :=
  match pop (split '/' file) with
  | none => none
  | some segment => first (split '?' segment)

/-- The `file-box` element: the text of its `span` and the link its button
opens. -/
structure FileBox where
  label : JSString
  opens : JSString
  deriving DecidableEq, Repr

/-- What `ChatMessage` returns, reduced to the parts that depend on the
record and on `isAuthor`. -/
structure ChatMessageView where
  username : JSString
  deleteControl : Bool
  markdown : JSString
  fileBox : Option FileBox
  deriving DecidableEq, Repr

/-- The JSX of lines 138-176; `none` when evaluating it throws. -/
def render (message : MessageRecord) (isAuthor : Bool) : Option ChatMessageView :=
  let view : Option FileBox → ChatMessageView := fun box =>
    { username := message.author_name, deleteControl := isAuthor,
      markdown := message.message, fileBox := box }
  match message.file with
  | none => some (view none)
  | some file =>
    if file.isEmpty then some (view none)
    else
      match fileLabel file with
      | none => none
      | some label => some (view (some { label := label, opens := file }))

/-! ## The words of the specification, for comparison -/

/-- Spec wording: "the query string is removed from the link": what precedes
the first `?`. -/
def specStripQuery (link : JSString) : JSString :=
  link.takeWhile (fun c => c != '?')

/-- Spec wording: "the text after the last `/`" (all of it when there is no
`/`). -/
def specAfterLastSlash : JSString → JSString
  | [] => []
  | c :: cs =>
    if '/' ∈ cs then specAfterLastSlash cs
    else if c = '/' then cs
    else c :: cs

/-- Spec wording: "the last path segment of the link with any query string
stripped". -/
def specFileName (link : JSString) : JSString :=
  specAfterLastSlash (specStripQuery link)

/-! ## Predicates on outcomes, and the concrete runs the theorems are evaluated on -/

/-- Did the upload fail (an error answer or a thrown exception)? -/
def UploadOutcome.failed : UploadOutcome → Bool
  | UploadOutcome.ok => false
  | _ => true

/-- Did the link-signing request fail (an error answer or a thrown exception)? -/
def SignOutcome.failed : SignOutcome → Bool
  | SignOutcome.ok _ => false
  | _ => true

/-- A composer holding no text and the file `a`, for the empty-link run. -/
def emptyLinkState : ChatState :=
  { ChatState.initial with
    username := "bob".toList, file := some { name := "a".toList, bytes := [] } }

/-- A run in which upload and signing succeed and the signed link is `""`. -/
def emptyLinkEnv : SendEnv :=
  { getUserRejected := false, pathUuid := "u1".toList, upload := UploadOutcome.ok,
    sign := SignOutcome.ok [], idUuid := "u2".toList, now := "t".toList,
    insertRejected := false }

/-- The hooks of `Chat` once `initChat` has run to its end for the given
session user and snapshot answer, and the given text has been typed. -/
def composerAfterInit (user : Option User) (data : Option (List MessageRecord))
    (text : JSString) : ChatState :=
  setMessage
    (run mount [ChatEvent.getUserResolved user, ChatEvent.selectResolved data]).chat text

/-- A session user called `alice`. -/
def alice : User :=
  { username := some "alice".toList, isDeleted := false, email_confirmed_at := none }

/-- A session user whose display name is the empty string. -/
def nameless : User :=
  { username := some [], isDeleted := false, email_confirmed_at := none }

/-- A run of `sendMessage` in which every call succeeds. -/
def plainEnv : SendEnv :=
  { getUserRejected := false, pathUuid := "u1".toList, upload := UploadOutcome.ok,
    sign := SignOutcome.ok "https://h/f".toList, idUuid := "u2".toList, now := "t".toList,
    insertRejected := false }

/-- A session user flagged deleted. -/
def deletedUser : User :=
  { username := some "mallory".toList, isDeleted := true, email_confirmed_at := none }

/-- A record written by another client. -/
def feedRecord : MessageRecord :=
  { id := "m1".toList, author_name := "alice".toList, message := "hello".toList,
    created_at := "t".toList, file := none }

/-- No snapshot was requested. -/
def Effect.isSelect : Effect → Bool
  | Effect.select _ => true
  | _ => false

/-- Is the call a Message Store delete? -/
def Effect.isDelete : Effect → Bool
  | Effect.delete _ _ => true
  | _ => false

/-- The characters of a `crypto.randomUUID()` string: lower-case hexadecimal
digits and hyphens. -/
def isUuidChar (c : Char) : Bool :=
  c.isDigit || ('a' ≤ c && c ≤ 'f') || c == '-'

/-- The file of the `report.pdf` scenario. -/
def reportPdf : FileObj := { name := "report.pdf".toList, bytes := [37, 80, 68, 70] }

/-- A composer with no text and `report.pdf` selected. -/
def reportState : ChatState :=
  { ChatState.initial with username := "alice".toList, file := some reportPdf }

/-- A run for `reportState` in which upload and signing succeed and the signed
link is the storage path followed by `?token=abc`. -/
def reportEnv : SendEnv :=
  { getUserRejected := false, pathUuid := "123e4567-e89b-12d3-a456-426614174000".toList,
    upload := UploadOutcome.ok,
    sign := SignOutcome.ok
      "files/123e4567-e89b-12d3-a456-426614174000-report.pdf?token=abc".toList,
    idUuid := "9b2f".toList, now := "2024-01-01T00:00:00.000Z".toList,
    insertRejected := false }

/-- A record whose link is a signed URL with a token. -/
def tokenLinkRecord : MessageRecord :=
  { id := "m1".toList, author_name := "alice".toList, message := [], created_at := "t".toList,
    file := some "https://h/sign/files/u-a.pdf?token=x".toList }

/-- The record `plainEnv` yields for `emptyLinkState`: no text, the file `a`. -/
def linkRecord : MessageRecord :=
  { id := "u2".toList, author_name := "bob".toList, message := [], created_at := "t".toList,
    file := some "https://h/f".toList }

/-- A session user whose metadata holds no `username`. -/
def anonymous : User :=
  { username := none, isDeleted := false, email_confirmed_at := none }

/-- The record `plainEnv` yields for `alice` sending `hello`. -/
def helloRecord : MessageRecord :=
  { id := "u2".toList, author_name := "alice".toList, message := "hello".toList,
    created_at := "t".toList, file := none }

/-! ## Theorems: the Composer -/

/-- C1: when the trimmed text is empty and no attachment is selected,
`sendMessage` only calls `preventDefault` and `getUser`: it performs no insert,
no upload and no link-signing request, and the composer text, the attachment
selection and the local message list (indeed every hook) are unchanged. -/
theorem sendMessage_empty_is_noop (s : ChatState) (env : SendEnv)
    (hText : trim s.message = []) (hFile : s.file = none) :
    insertedRecords (sendMessage s env).2 = [] ∧
    (∀ e ∈ (sendMessage s env).2, e.isUpload = false ∧ e.isSign = false) ∧
    (sendMessage s env).2 = [Effect.preventDefault, Effect.getUser] ∧
    (sendMessage s env).1.message = s.message ∧
    (sendMessage s env).1.file = s.file ∧
    (sendMessage s env).1.messages = s.messages ∧
    (sendMessage s env).1 = s := by
  have h : sendMessage s env = (s, [Effect.preventDefault, Effect.getUser]) := by
    unfold sendMessage
    by_cases hg : env.getUserRejected = true
    · simp [hg]
    · simp [hg, hText, hFile]
  rw [h]
  simp [insertedRecords, Effect.isUpload, Effect.isSign]

/-- Witness of C1: a composer holding only blanks and a line break, no file. -/
theorem sendMessage_empty_is_noop_witness :
    insertedRecords (sendMessage (setMessage ChatState.initial "  \n ".toList) emptyLinkEnv).2 = [] ∧
    (sendMessage (setMessage ChatState.initial "  \n ".toList) emptyLinkEnv).1
      = setMessage ChatState.initial "  \n ".toList :=
  have h := sendMessage_empty_is_noop (setMessage ChatState.initial "  \n ".toList)
    emptyLinkEnv (by decide) (by decide)
  ⟨h.1, h.2.2.2.2.2.2⟩

/-- C2: for every composer state and every outcome of the external calls,
every record `sendMessage` passes to the insert has a non-empty body or a
non-empty `file`. What a successful link-signing request answers is a url, as
the Blob Store interface has it (`hLink`): the storage endpoint followed by the
signed path, never the empty string. -/
theorem sendMessage_record_nonempty (s : ChatState) (env : SendEnv) (r : MessageRecord)
    (hLink : ∀ url, env.sign = SignOutcome.ok url → url ≠ [])
    (hr : r ∈ insertedRecords (sendMessage s env).2) :
    r.message ≠ [] ∨ ∃ link, r.file = some link ∧ link ≠ [] := by
  unfold sendMessage at hr
  by_cases hg : env.getUserRejected = true
  · simp [hg, insertedRecords] at hr
  · simp only [hg] at hr
    cases hf : s.file with
    | none =>
      by_cases ht : trim s.message = []
      · simp [hf, ht, insertedRecords] at hr
      · have hm : s.message ≠ [] := by
          intro h0
          apply ht
          rw [h0]
          rfl
        by_cases hi : env.insertRejected = true <;>
          simp [hf, ht, commit, hi, insertedRecords] at hr <;>
          · subst hr
            exact Or.inl hm
    | some file =>
      cases hu : env.upload with
      | error msg => simp [hf, hu, insertedRecords] at hr
      | rejected => simp [hf, hu, insertedRecords] at hr
      | ok =>
        cases hs : env.sign with
        | error msg => simp [hf, hu, hs, insertedRecords] at hr
        | rejected => simp [hf, hu, hs, insertedRecords] at hr
        | ok url =>
          have hne := hLink url hs
          by_cases hi : env.insertRejected = true <;>
            simp [hf, hu, hs, commit, hi, insertedRecords] at hr <;>
            · subst hr
              exact Or.inr ⟨url, rfl, hne⟩

/-- Witness of C2: no text, the file `a` selected, upload and signing succeed
and the signed link is `https://h/f`; the record has an empty body and that
link as `file`. -/
theorem sendMessage_record_nonempty_witness :
    linkRecord ∈ insertedRecords (sendMessage emptyLinkState plainEnv).2 ∧
    linkRecord.message = [] ∧
    (linkRecord.message ≠ [] ∨ ∃ link, linkRecord.file = some link ∧ link ≠ []) :=
  ⟨by decide, rfl,
   sendMessage_record_nonempty emptyLinkState plainEnv linkRecord
    (by
      intro url h
      have h2 : SignOutcome.ok "https://h/f".toList = SignOutcome.ok url := h
      injection h2 with h3
      subst h3
      decide)
    (by decide)⟩

/-- C3: with an attachment selected, a failed upload or a failed signing
request leaves `sendMessage` without any insert and with every hook (composer
text and attachment selection included) unchanged; and whenever a signed link
is requested, the upload had succeeded, the request directly follows the
upload, names the same bucket and path, and asks for 3600 seconds. -/
theorem sendMessage_storage_failure_aborts (s : ChatState) (env : SendEnv) (file : FileObj)
    (hFile : s.file = some file) :
    ((env.upload.failed = true ∨ env.sign.failed = true) →
      insertedRecords (sendMessage s env).2 = [] ∧ (sendMessage s env).1 = s) ∧
    (env.upload.failed = true → ∀ e ∈ (sendMessage s env).2, e.isSign = false) ∧
    (∀ b p ttl, Effect.createSignedUrl b p ttl ∈ (sendMessage s env).2 →
      env.upload = UploadOutcome.ok ∧ ttl = 3600 ∧
      p = storagePath env.pathUuid file ∧
      ∃ post, (sendMessage s env).2 =
        [Effect.preventDefault, Effect.getUser, Effect.upload b p file,
         Effect.createSignedUrl b p ttl] ++ post) := by
  unfold sendMessage
  by_cases hg : env.getUserRejected = true
  · simp [hg, insertedRecords, Effect.isSign]
  · cases hu : env.upload with
    | error msg =>
      simp [hg, hFile, hu, insertedRecords, Effect.isSign, UploadOutcome.failed]
    | rejected =>
      simp [hg, hFile, hu, insertedRecords, Effect.isSign, UploadOutcome.failed]
    | ok =>
      cases hs : env.sign with
      | error msg =>
        simp [hg, hFile, hu, hs, insertedRecords, UploadOutcome.failed, SignOutcome.failed]
        rintro b p ttl rfl rfl rfl
        simp
      | rejected =>
        simp [hg, hFile, hu, hs, insertedRecords, UploadOutcome.failed, SignOutcome.failed]
        rintro b p ttl rfl rfl rfl
        simp
      | ok url =>
        by_cases hi : env.insertRejected = true <;>
          simp [hg, hFile, hu, hs, hi, commit, UploadOutcome.failed, SignOutcome.failed] <;>
          · rintro b p ttl rfl rfl rfl
            simp

/-- Witness of C3: the file `a` is selected and the upload answers an error. -/
theorem sendMessage_storage_failure_aborts_witness :
    insertedRecords (sendMessage emptyLinkState
        { emptyLinkEnv with upload := UploadOutcome.error "quota".toList }).2 = [] ∧
    (sendMessage emptyLinkState
        { emptyLinkEnv with upload := UploadOutcome.error "quota".toList }).1 = emptyLinkState :=
  (sendMessage_storage_failure_aborts emptyLinkState
    { emptyLinkEnv with upload := UploadOutcome.error "quota".toList }
    { name := "a".toList, bytes := [] } rfl).1 (Or.inl rfl)

/-- The hooks after `initChat` has completed for a user that is not flagged
deleted. -/
theorem composerAfterInit_eq (user : Option User) (data : Option (List MessageRecord))
    (text : JSString) (hLive : userIsDeleted user = false) :
    composerAfterInit user data text =
      { username := usernameOrUnknown user, message := text, messages := data.getD [],
        file := none, isEmailVerified := emailConfirmed user, fileInputValue := [] } := by
  simp [composerAfterInit, run, step, initChat, mount, hLive, Activation.setChat, setMessage,
    ChatState.initial]

/-- What `sendMessage` inserts when no file is selected and the text is not
blank. -/
theorem sendMessage_text_only (s : ChatState) (env : SendEnv)
    (hUser : env.getUserRejected = false) (hFile : s.file = none)
    (hText : trim s.message ≠ []) :
    insertedRecords (sendMessage s env).2 =
      [{ id := env.idUuid, author_name := s.username, message := s.message,
         created_at := env.now, file := none }] := by
  unfold sendMessage
  by_cases hi : env.insertRejected = true <;>
    simp [hUser, hFile, hText, commit, hi, insertedRecords]

/-- C4, as the code has it: after `initChat` has completed for a principal that
is not flagged deleted, a submit without attachment whose text is not blank
inserts exactly one record, with the composer text as body and `file` null; its
`author_name` is the principal's display name when that name is a non-empty
string, and `Unknown` when the name is missing or empty. -/
theorem sendMessage_commits_one (p : User) (data : Option (List MessageRecord))
    (text : JSString) (env : SendEnv)
    (hLive : p.isDeleted = false) (hUser : env.getUserRejected = false)
    (hText : trim text ≠ []) :
    (∀ n, p.username = some n → n ≠ [] →
      insertedRecords (sendMessage (composerAfterInit (some p) data text) env).2 =
        [{ id := env.idUuid, author_name := n, message := text,
           created_at := env.now, file := none }]) ∧
    ((p.username = none ∨ p.username = some []) →
      insertedRecords (sendMessage (composerAfterInit (some p) data text) env).2 =
        [{ id := env.idUuid, author_name := "Unknown".toList, message := text,
           created_at := env.now, file := none }]) := by
  have hs := composerAfterInit_eq (some p) data text (by simpa [userIsDeleted] using hLive)
  have hins := sendMessage_text_only (composerAfterInit (some p) data text) env hUser
    (by rw [hs]) (by rw [hs]; exact hText)
  rw [hins, hs]
  constructor
  · intro n hn hne
    simp [usernameOrUnknown, hn, hne]
  · rintro (hn | hn) <;> simp [usernameOrUnknown, hn]

/-- Witness of C4: principal `alice` sends `hello` with no attachment. -/
theorem sendMessage_commits_one_witness :
    insertedRecords (sendMessage (composerAfterInit (some alice) none "hello".toList) plainEnv).2 =
      [{ id := "u2".toList, author_name := "alice".toList, message := "hello".toList,
         created_at := "t".toList, file := none }] :=
  (sendMessage_commits_one alice none "hello".toList plainEnv rfl rfl (by decide)).1
    "alice".toList rfl (by decide)

/-- C4 as stated fails: a principal whose display name is the empty string
sends `hello`; the record inserted carries the author name `Unknown`, which is
not the principal's display name. -/
theorem sendMessage_author_unknown :
    (insertedRecords (sendMessage (composerAfterInit (some nameless) none "hello".toList)
        plainEnv).2).map (fun r => r.author_name) = ["Unknown".toList] ∧
    nameless.username = some [] ∧ "Unknown".toList ≠ ([] : JSString) := by
  decide

/-! ## Theorems: the Message Renderer -/

/-- `split` never answers the empty array. -/
theorem split_ne_nil (sep : Char) (s : JSString) : split sep s ≠ [] := by
  cases s with
  | nil => simp [split]
  | cons c cs =>
    unfold split
    by_cases h : c = sep
    · simp [h]
    · simp only [h, if_false]
      split <;> simp

/-- Without the separator the whole string is the only piece. -/
theorem split_of_not_mem (sep : Char) (s : JSString) (h : sep ∉ s) : split sep s = [s] := by
  induction s with
  | nil => simp [split]
  | cons c cs ih =>
    have hc : ¬ c = sep := fun e => h (by simp [e])
    have hcs : sep ∉ cs := fun e => h (by simp [e])
    unfold split
    simp [hc, ih hcs]

/-- With the separator present there are at least two pieces. -/
theorem split_two_of_mem (sep : Char) (s : JSString) (h : sep ∈ s) :
    ∃ a b rest, split sep s = a :: b :: rest := by
  induction s with
  | nil => simp at h
  | cons c cs ih =>
    unfold split
    by_cases hc : c = sep
    · simp only [hc, if_true]
      cases hs : split sep cs with
      | nil => exact absurd hs (split_ne_nil sep cs)
      | cons b rest => exact ⟨[], b, rest, rfl⟩
    · have hcs : sep ∈ cs := by
        rcases List.mem_cons.mp h with h1 | h1
        · exact absurd h1.symm hc
        · exact h1
      obtain ⟨a, b, rest, hab⟩ := ih hcs
      simp only [hc, if_false, hab]
      exact ⟨c :: a, b, rest, rfl⟩

/-- The first piece is what precedes the first separator. -/
theorem first_split (sep : Char) (s : JSString) :
    first (split sep s) = some (s.takeWhile (fun c => c != sep)) := by
  cases s with
  | nil => simp [split, first]
  | cons c cs =>
    unfold split
    by_cases hc : c = sep
    · simp [hc, first]
    · simp only [hc, if_false]
      have ih := first_split sep cs
      cases hs : split sep cs with
      | nil => exact absurd hs (split_ne_nil sep cs)
      | cons seg rest =>
        rw [hs] at ih
        simp [first] at ih
        simp [first, List.takeWhile_cons, hc, ih]

/-- Without a slash, the text after the last slash is the whole text. -/
theorem specAfterLastSlash_of_not_mem (s : JSString) (h : '/' ∉ s) :
    specAfterLastSlash s = s := by
  cases s with
  | nil => rfl
  | cons c cs =>
    have hc : ¬ c = '/' := fun e => h (by simp [e])
    have hcs : '/' ∉ cs := fun e => h (by simp [e])
    simp [specAfterLastSlash, hc, hcs]

/-- The last piece of a split at slashes is the text after the last slash. -/
theorem pop_split_slash (s : JSString) :
    pop (split '/' s) = some (specAfterLastSlash s) := by
  induction s with
  | nil => simp [split, pop, specAfterLastSlash]
  | cons c cs ih =>
    unfold split
    by_cases hc : c = '/'
    · simp only [hc, if_true]
      cases hs : split '/' cs with
      | nil => exact absurd hs (split_ne_nil '/' cs)
      | cons seg rest =>
        rw [hs] at ih
        simp only [pop] at ih ⊢
        rw [List.getLast?_cons_cons, ih]
        by_cases hm : '/' ∈ cs
        · simp [specAfterLastSlash, hm]
        · simp [specAfterLastSlash, hm, specAfterLastSlash_of_not_mem cs hm]
    · simp only [hc, if_false]
      by_cases hm : '/' ∈ cs
      · obtain ⟨a, b, rest, hab⟩ := split_two_of_mem '/' cs hm
        rw [hab] at ih
        simp only [pop] at ih ⊢
        rw [hab]
        simp only [List.getLast?_cons_cons] at ih ⊢
        rw [ih]
        simp [specAfterLastSlash, hm]
      · rw [split_of_not_mem '/' cs hm]
        simp [pop, specAfterLastSlash, hm, hc]

/-- The label expression never throws: it is the text after the last slash of
the whole link, cut at its first question mark. -/
theorem fileLabel_eq (link : JSString) :
    fileLabel link = some (specStripQuery (specAfterLastSlash link)) := by
  unfold fileLabel
  rw [pop_split_slash]
  simp only [first_split, specStripQuery]

/-- A slash occurs before the first question mark exactly when it occurs at
all, if none occurs after it. -/
theorem slash_mem_stripQuery (s : JSString)
    (h : '/' ∉ s.dropWhile (fun c => c != '?')) :
    '/' ∈ specStripQuery s ↔ '/' ∈ s := by
  unfold specStripQuery
  constructor
  · intro hm
    exact (List.takeWhile_sublist _).subset hm
  · intro hm
    rw [← List.takeWhile_append_dropWhile (fun c => c != '?') s] at hm
    rcases List.mem_append.mp hm with h1 | h1
    · exact h1
    · exact absurd h1 h

/-- Cutting the query and taking the last segment commute when the query
holds no slash. -/
theorem stripQuery_afterLastSlash_comm (link : JSString)
    (h : '/' ∉ link.dropWhile (fun c => c != '?')) :
    specStripQuery (specAfterLastSlash link) = specAfterLastSlash (specStripQuery link) := by
  induction link with
  | nil => rfl
  | cons c cs ih =>
    by_cases hq : c = '?'
    · subst hq
      have hcs : '/' ∉ cs := by
        intro hm
        apply h
        simp [List.dropWhile_cons, hm]
      simp [specStripQuery, specAfterLastSlash, hcs]
    · have hd : (c :: cs).dropWhile (fun c => c != '?') = cs.dropWhile (fun c => c != '?') := by
        simp [List.dropWhile_cons, hq]
      rw [hd] at h
      have hiff := slash_mem_stripQuery cs h
      have hs : specStripQuery (c :: cs) = c :: specStripQuery cs := by
        simp [specStripQuery, List.takeWhile_cons, hq]
      rw [hs]
      by_cases hm : '/' ∈ cs
      · have hm2 : '/' ∈ specStripQuery cs := hiff.mpr hm
        simp only [specAfterLastSlash, hm, hm2, if_true]
        exact ih h
      · have hm2 : '/' ∉ specStripQuery cs := fun e => hm (hiff.mp e)
        by_cases hc : c = '/'
        · simp [specAfterLastSlash, hm, hm2, hc]
        · simp [specAfterLastSlash, hm, hm2, hc, hs]

/-- C5, as the code has it: for every non-empty attachment link the file box
is rendered, its button opens the link, and the filename shown is the text
after the last slash of the whole link, cut at its first question mark. When no
slash occurs after the first question mark, that is the last path segment of
the link with the query string stripped. -/
theorem render_filename (msg : MessageRecord) (isAuthor : Bool) (link : JSString)
    (hFile : msg.file = some link) (hLink : link ≠ []) :
    (∃ v, render msg isAuthor = some v ∧
      v.fileBox = some { label := specStripQuery (specAfterLastSlash link), opens := link }) ∧
    ('/' ∉ link.dropWhile (fun c => c != '?') →
      ∃ v, render msg isAuthor = some v ∧
        v.fileBox = some { label := specFileName link, opens := link }) := by
  have hr : render msg isAuthor = some
      { username := msg.author_name, deleteControl := isAuthor, markdown := msg.message,
        fileBox := some { label := specStripQuery (specAfterLastSlash link), opens := link } } := by
    unfold render
    simp [hFile, hLink, fileLabel_eq]
  refine ⟨⟨_, hr, rfl⟩, ?_⟩
  intro hq
  refine ⟨_, hr, ?_⟩
  simp [specFileName, stripQuery_afterLastSlash_comm link hq]

/-- Witness of C5: the link `https://h/sign/files/u-a.pdf?token=x`. -/
theorem render_filename_witness :
    ∃ v, render tokenLinkRecord false = some v ∧
      v.fileBox = some { label := specFileName "https://h/sign/files/u-a.pdf?token=x".toList,
                         opens := "https://h/sign/files/u-a.pdf?token=x".toList } :=
  (render_filename tokenLinkRecord false "https://h/sign/files/u-a.pdf?token=x".toList
    rfl (by decide)).2 (by decide)

/-- C5 as stated fails: for the link `a?b/c` the filename shown is `c`, whereas
stripping the query string first and taking the text after the last slash of
what remains gives `a`. -/
theorem render_filename_slash_in_query :
    (render { tokenLinkRecord with file := some "a?b/c".toList } false).map
        (fun v => v.fileBox.map (fun b => b.label)) = some (some "c".toList) ∧
    specFileName "a?b/c".toList = "a".toList := by
  decide

/-- The text after the last slash of `pre/rest`, when `rest` has no slash. -/
theorem specAfterLastSlash_append (pre rest : JSString) (h : '/' ∉ rest) :
    specAfterLastSlash (pre ++ '/' :: rest) = rest := by
  induction pre with
  | nil => simp [specAfterLastSlash, h]
  | cons c cs ih => simp [specAfterLastSlash, ih]

/-- Cutting `name?query` at the question mark, when `name` has none. -/
theorem specStripQuery_append (name query : JSString) (h : '?' ∉ name) :
    specStripQuery (name ++ '?' :: query) = name := by
  induction name with
  | nil => simp [specStripQuery]
  | cons c cs ih =>
    have hc : ¬ c = '?' := fun e => h (by simp [e])
    have hcs : '?' ∉ cs := fun e => h (by simp [e])
    have := ih hcs
    simp only [specStripQuery] at this ⊢
    simp [List.takeWhile_cons, hc, this]

/-- C6, as the code has it: submitting `report.pdf` with an empty body, with
upload and signing successful and the signed link being the storage path
followed by a query string without a slash, inserts exactly one record, with
body `""` and a `file` link that contains `report.pdf`; `ChatMessage` shows for
it the unique identifier of the storage path, a hyphen and `report.pdf`. -/
theorem sendMessage_report_pdf (s : ChatState) (env : SendEnv) (file : FileObj)
    (query : JSString)
    (hBody : s.message = []) (hFile : s.file = some file)
    (hName : file.name = "report.pdf".toList)
    (hUser : env.getUserRejected = false)
    (hUuid : ∀ c ∈ env.pathUuid, isUuidChar c = true)
    (hUpload : env.upload = UploadOutcome.ok)
    (hSign : env.sign = SignOutcome.ok (storagePath env.pathUuid file ++ '?' :: query))
    (hQuery : '/' ∉ query) :
    ∃ r link, insertedRecords (sendMessage s env).2 = [r] ∧
      r.message = [] ∧ r.file = some link ∧
      "report.pdf".toList <:+: link ∧
      ∀ isAuthor, ∃ v, render r isAuthor = some v ∧
        v.fileBox = some { label := env.pathUuid ++ "-report.pdf".toList, opens := link } := by
  have hNoSlash : '/' ∉ env.pathUuid := fun h => by
    have := hUuid _ h
    revert this
    decide
  have hNoQ : '?' ∉ env.pathUuid := fun h => by
    have := hUuid _ h
    revert this
    decide
  have hPath : storagePath env.pathUuid file
      = "files".toList ++ '/' :: (env.pathUuid ++ "-report.pdf".toList) := by
    simp [storagePath, hName]
  have hLabel : specStripQuery (specAfterLastSlash (storagePath env.pathUuid file ++ '?' :: query))
      = env.pathUuid ++ "-report.pdf".toList := by
    have h1 : storagePath env.pathUuid file ++ '?' :: query
        = "files".toList ++ '/' :: ((env.pathUuid ++ "-report.pdf".toList) ++ '?' :: query) := by
      rw [hPath]
      simp
    rw [h1, specAfterLastSlash_append, specStripQuery_append]
    · intro hm
      rcases List.mem_append.mp hm with h2 | h2
      · exact hNoQ h2
      · revert h2
        decide
    · intro hm
      rcases List.mem_append.mp hm with h2 | h2
      · rcases List.mem_append.mp h2 with h3 | h3
        · exact hNoSlash h3
        · revert h3
          decide
      · rcases List.mem_cons.mp h2 with h3 | h3
        · revert h3
          decide
        · exact hQuery h3
  have hNe : storagePath env.pathUuid file ++ '?' :: query ≠ [] := by simp
  refine ⟨{ id := env.idUuid, author_name := s.username, message := s.message,
            created_at := env.now,
            file := some (storagePath env.pathUuid file ++ '?' :: query) },
          storagePath env.pathUuid file ++ '?' :: query, ?_, hBody, rfl, ?_, ?_⟩
  · unfold sendMessage
    by_cases hi : env.insertRejected = true <;>
      simp [hUser, hFile, hUpload, hSign, commit, hi, insertedRecords]
  · refine ⟨"files".toList ++ '/' :: (env.pathUuid ++ "-".toList), '?' :: query, ?_⟩
    rw [hPath]
    simp
  · intro isAuthor
    have h := (render_filename
      { id := env.idUuid, author_name := s.username, message := s.message,
        created_at := env.now,
        file := some (storagePath env.pathUuid file ++ '?' :: query) }
      isAuthor _ rfl hNe).1
    rw [hLabel] at h
    exact h

/-- Witness of C6: the run `reportEnv` on `reportState`. -/
theorem sendMessage_report_pdf_witness :
    ∃ r link, insertedRecords (sendMessage reportState reportEnv).2 = [r] ∧
      r.message = [] ∧ r.file = some link ∧
      "report.pdf".toList <:+: link ∧
      ∀ isAuthor, ∃ v, render r isAuthor = some v ∧
        v.fileBox = some { label := reportEnv.pathUuid ++ "-report.pdf".toList, opens := link } :=
  sendMessage_report_pdf reportState reportEnv reportPdf "token=abc".toList
    rfl rfl rfl rfl (by decide) rfl (by decide) (by decide)

/-- C6 as stated fails: in the run `reportEnv` the filename shown is
`123e4567-e89b-12d3-a456-426614174000-report.pdf`, not `report.pdf`. -/
theorem sendMessage_report_pdf_label :
    (insertedRecords (sendMessage reportState reportEnv).2).map
        (fun r => (render r false).map (fun v => v.fileBox.map (fun b => b.label)))
      = [some (some "123e4567-e89b-12d3-a456-426614174000-report.pdf".toList)] ∧
    "123e4567-e89b-12d3-a456-426614174000-report.pdf".toList ≠ "report.pdf".toList := by
  decide

/-- `ChatMessage` always renders, and shows the delete control exactly when
`isAuthor` holds. -/
theorem render_deleteControl (msg : MessageRecord) (isAuthor : Bool) :
    ∃ v, render msg isAuthor = some v ∧ v.deleteControl = isAuthor := by
  unfold render
  cases hf : msg.file with
  | none => simp
  | some link =>
    by_cases hl : link = []
    · simp [hl]
    · simp [hl, fileLabel_eq]

/-- Every record `sendMessage` inserts carries the `username` hook as author. -/
theorem sendMessage_author (s : ChatState) (env : SendEnv) (r : MessageRecord)
    (hr : r ∈ insertedRecords (sendMessage s env).2) : r.author_name = s.username := by
  unfold sendMessage at hr
  by_cases hg : env.getUserRejected = true
  · simp [hg, insertedRecords] at hr
  · by_cases hi : env.insertRejected = true <;>
    cases hf : s.file <;> cases hu : env.upload <;> cases hs : env.sign <;>
      by_cases ht : trim s.message = [] <;>
      simp [hg, hf, hu, hs, ht, hi, commit, insertedRecords] at hr <;>
      simp [hr]

/-- The authorship check by itself: once it has completed, the delete control
is shown on a message if and only if the message's `author_name` equals the
`username` of the viewer's session metadata. For a viewer that is not flagged
deleted and whose display name is a non-empty string, every message sent after
`initChat` has completed carries that name, so the control is shown on it. -/
theorem deleteControl_iff_author (msg : MessageRecord) (viewer : Option User) :
    (∃ v, render msg (checkIfAuthor msg.author_name viewer) = some v ∧
      (v.deleteControl = true ↔ viewer.bind (fun u => u.username) = some msg.author_name)) ∧
    (∀ p n, viewer = some p ∧ p.username = some n ∧ n ≠ [] ∧ p.isDeleted = false →
      ∀ data text file env,
        ∀ r ∈ insertedRecords (sendMessage (setFile (composerAfterInit viewer data text) file) env).2,
          r.author_name = n ∧ checkIfAuthor r.author_name viewer = true) := by
  constructor
  · obtain ⟨v, hv, hd⟩ := render_deleteControl msg (checkIfAuthor msg.author_name viewer)
    refine ⟨v, hv, ?_⟩
    rw [hd]
    simp only [checkIfAuthor, decide_eq_true_eq]
    exact eq_comm
  · rintro p n ⟨rfl, hn, hne, hLive⟩ data text file env r hr
    have ha := sendMessage_author _ env r hr
    have hs := composerAfterInit_eq (some p) data text (by simpa [userIsDeleted] using hLive)
    have hu : r.author_name = n := by
      rw [ha, setFile, hs]
      simp [usernameOrUnknown, hn, hne]
    refine ⟨hu, ?_⟩
    simp [checkIfAuthor, hu, hn]

/-- An instance: `alice` views the message `hello` she sent after her `Chat` was
initialised. -/
theorem deleteControl_iff_author_witness :
    helloRecord ∈ insertedRecords
      (sendMessage (setFile (composerAfterInit (some alice) none "hello".toList) none) plainEnv).2 ∧
    helloRecord.author_name = "alice".toList ∧
    checkIfAuthor helloRecord.author_name (some alice) = true :=
  ⟨by decide,
   (deleteControl_iff_author feedRecord (some alice)).2 alice "alice".toList
    ⟨rfl, rfl, by decide, rfl⟩ none "hello".toList none plainEnv helloRecord (by decide)⟩

/-- C7, the code at the failing input: a viewer whose display name is the
empty string, and one whose metadata holds no `username`, each send `hello`
after `initChat` has completed. Line 200 stores `Unknown` as `author_name`,
lines 125-126 compare `author_name` with the raw `username`, and the delete
control is not shown on the viewer's own message. -/
theorem deleteControl_hidden_on_own_message :
    (insertedRecords (sendMessage (composerAfterInit (some nameless) none "hello".toList)
        plainEnv).2).map
      (fun r => (r.author_name, (render r (checkIfAuthor r.author_name (some nameless))).map
        (fun v => v.deleteControl)))
      = [("Unknown".toList, some false)] ∧
    (insertedRecords (sendMessage (composerAfterInit (some anonymous) none "hello".toList)
        plainEnv).2).map
      (fun r => (r.author_name, (render r (checkIfAuthor r.author_name (some anonymous))).map
        (fun v => v.deleteControl)))
      = [("Unknown".toList, some false)] := by
  decide

/-- The `username` hook before `getUser` has resolved: `alice` types `hello` and
submits while `initChat` is still suspended; the record carries the initial
value `""` of the hook as `author_name`, and her authorship check does not show
the delete control on it. -/
theorem author_name_before_init :
    (insertedRecords (sendMessage (setMessage mount.chat "hello".toList) plainEnv).2).map
      (fun r => (r.author_name, (render r (checkIfAuthor r.author_name (some alice))).map
        (fun v => v.deleteControl)))
      = [([], some false)] := by
  decide

/-! ## Theorems: the Feed Controller -/

/-- A step that is not the answer of `getUser` for a live user neither
requests the snapshot nor makes `initChat` wait for it. -/
theorem step_no_select (a : Activation) (e : ChatEvent)
    (hDel : ∀ u, e = ChatEvent.getUserResolved u → userIsDeleted u = true)
    (hPc : a.pc ≠ InitPc.awaitSelect)
    (hTrace : a.trace.all (fun e => !e.isSelect) = true) :
    (step a e).pc ≠ InitPc.awaitSelect ∧
    (step a e).trace.all (fun e => !e.isSelect) = true := by
  cases e with
  | getUserResolved u =>
    have hu := hDel u rfl
    cases hp : a.pc <;> simp_all [step, initChat, Effect.isSelect]
  | signOutResolved =>
    cases hp : a.pc <;> simp_all [step, initChat, Effect.isSelect]
  | selectResolved data =>
    cases hp : a.pc <;> simp_all [step, initChat, Effect.isSelect]
  | feedInsert r =>
    by_cases hm : a.mounted = true <;> simp_all [step]
  | unmount =>
    by_cases hm : a.mounted = true <;> simp_all [step, Effect.isSelect]

/-- The same for a sequence of events. -/
theorem run_no_select (es : List ChatEvent) (a : Activation)
    (hDel : ∀ u, ChatEvent.getUserResolved u ∈ es → userIsDeleted u = true)
    (hPc : a.pc ≠ InitPc.awaitSelect)
    (hTrace : a.trace.all (fun e => !e.isSelect) = true) :
    (run a es).pc ≠ InitPc.awaitSelect ∧
    (run a es).trace.all (fun e => !e.isSelect) = true := by
  induction es generalizing a with
  | nil => exact ⟨hPc, hTrace⟩
  | cons e rest ih =>
    have h1 := step_no_select a e (fun u hu => hDel u (by simp [hu])) hPc hTrace
    have h2 := ih (step a e) (fun u hu => hDel u (by simp [hu])) h1.1 h1.2
    simpa [run] using h2

/-- An activation in which every answer of `getUser` is a principal flagged
deleted never requests the message snapshot, whatever events are delivered. -/
theorem deleted_activation_never_selects (es : List ChatEvent)
    (hDel : ∀ u, ChatEvent.getUserResolved u ∈ es → userIsDeleted u = true) :
    (run mount es).trace.all (fun e => !e.isSelect) = true :=
  (run_no_select es mount hDel (by decide) (by decide)).2

/-- Insert events delivered to a mounted `Chat` are all appended, in order. -/
theorem run_feedInserts (records : List MessageRecord) (a : Activation)
    (hMounted : a.mounted = true) :
    run a (records.map ChatEvent.feedInsert)
      = { a with chat := { a.chat with messages := a.chat.messages ++ records } } := by
  induction records generalizing a with
  | nil => simp [run]
  | cons r rest ih =>
    have h := ih (step a (ChatEvent.feedInsert r)) (by simp [step, hMounted])
    simp only [run, List.map_cons, List.foldl_cons] at h ⊢
    rw [h]
    simp [step, hMounted, appendInsert]

/-- For a principal flagged deleted, with insert events delivered before and
after `getUser` resolves: the session is signed out, the client is redirected
with the `account_deleted` marker, no snapshot is requested, and the local list
holds every record that was pushed. -/
theorem deleted_activation_outcome (u : User) (before after : List MessageRecord)
    (hDeleted : u.isDeleted = true) :
    (run mount (before.map ChatEvent.feedInsert ++ [ChatEvent.getUserResolved (some u)] ++
        after.map ChatEvent.feedInsert ++ [ChatEvent.signOutResolved])).trace
      = [Effect.getUser, Effect.subscribe messagesChannel messagesTable, Effect.signOut,
         Effect.nav accountDeletedTarget] ∧
    (run mount (before.map ChatEvent.feedInsert ++ [ChatEvent.getUserResolved (some u)] ++
        after.map ChatEvent.feedInsert ++ [ChatEvent.signOutResolved])).chat.messages
      = before ++ after := by
  have hrun : ∀ (a : Activation) (xs ys : List ChatEvent), run a (xs ++ ys) = run (run a xs) ys := by
    intro a xs ys
    simp [run, List.foldl_append]
  rw [hrun, hrun, hrun, run_feedInserts before mount rfl]
  have h1 : run { mount with chat := { mount.chat with messages := mount.chat.messages ++ before } }
      [ChatEvent.getUserResolved (some u)]
      = { chat := { ChatState.initial with messages := before }, pc := InitPc.awaitSignOut,
          mounted := true,
          trace := [Effect.getUser, Effect.subscribe messagesChannel messagesTable,
                    Effect.signOut] } := by
    simp [run, step, initChat, mount, userIsDeleted, hDeleted, ChatState.initial]
  rw [h1, run_feedInserts after _ rfl]
  simp [run, step, initChat]

/-- C8, the code at the failing input: `Chat` is mounted by a principal flagged
deleted and one insert event is delivered before `getUser` resolves. The
session is signed out, the client is redirected with the `account_deleted`
marker and no snapshot is requested, but the local list holds the pushed
record from the first event on. -/
theorem deleted_activation_receives_feed :
    (visited mount [ChatEvent.feedInsert feedRecord,
        ChatEvent.getUserResolved (some deletedUser), ChatEvent.signOutResolved]).map
      (fun a => a.chat.messages)
      = [[], [feedRecord], [feedRecord], [feedRecord]] ∧
    (run mount [ChatEvent.feedInsert feedRecord,
        ChatEvent.getUserResolved (some deletedUser), ChatEvent.signOutResolved]).trace
      = [Effect.getUser, Effect.subscribe messagesChannel messagesTable, Effect.signOut,
         Effect.nav "/?reason=account_deleted".toList] := by
  decide

/-- C9: a confirmed delete that succeeds replaces the local list by the
entries whose id differs, in their original order (a sublist in which every
other record keeps its number of occurrences) and touches no other hook; a
failed or declined delete leaves every hook unchanged, and a declined one
issues no delete request; removing the same id again changes nothing. -/
theorem deleteMessage_frame (s : ChatState) (id : JSString) :
    (deleteMessage s id true DeleteOutcome.ok).1
      = { s with messages := s.messages.filter (fun m => decide (m.id ≠ id)) } ∧
    List.Sublist (deleteMessage s id true DeleteOutcome.ok).1.messages s.messages ∧
    (∀ m, m ∈ (deleteMessage s id true DeleteOutcome.ok).1.messages ↔ m ∈ s.messages ∧ m.id ≠ id) ∧
    (∀ m, (deleteMessage s id true DeleteOutcome.ok).1.messages.count m
      = if m.id = id then 0 else s.messages.count m) ∧
    (∀ msg, (deleteMessage s id true (DeleteOutcome.error msg)).1 = s) ∧
    (deleteMessage s id true DeleteOutcome.rejected).1 = s ∧
    (∀ outcome, (deleteMessage s id false outcome).1 = s ∧
      (deleteMessage s id false outcome).2.all (fun e => !e.isDelete) = true) ∧
    removeMessage (removeMessage s.messages id) id = removeMessage s.messages id ∧
    (deleteMessage (deleteMessage s id true DeleteOutcome.ok).1 id true DeleteOutcome.ok).1
      = (deleteMessage s id true DeleteOutcome.ok).1 := by
  have hf : (fun m : MessageRecord => m.id != id) = (fun m => decide (m.id ≠ id)) := by
    funext m
    by_cases h : m.id = id <;> simp [h]
  refine ⟨?_, ?_, ?_, ?_, ?_, ?_, ?_, ?_, ?_⟩
  · simp [deleteMessage, removeMessage, hf]
  · simp only [deleteMessage, removeMessage, if_true]
    exact List.filter_sublist _
  · intro m
    simp [deleteMessage, removeMessage, List.mem_filter]
  · intro m
    simp only [deleteMessage, removeMessage, if_true]
    by_cases hm : m.id = id
    · rw [if_pos hm]
      apply List.count_eq_zero.mpr
      simp [List.mem_filter, hm]
    · rw [if_neg hm]
      exact List.count_filter (by simpa using hm)
  · intro msg
    simp [deleteMessage]
  · simp [deleteMessage]
  · intro outcome
    simp [deleteMessage, Effect.isDelete]
  · simp [removeMessage, List.filter_filter]
  · simp [deleteMessage, removeMessage, List.filter_filter]

/-- C10: while `Chat` is mounted, an insert event replaces the local list by
the previous list followed by the event's record: the length grows by one, the
previous entries are the prefix of the new list, the record is its last entry,
and the number of entries carrying the record's id grows by one too, whether
or not that id was already present. Nothing else changes. -/
theorem feedInsert_appends (a : Activation) (r : MessageRecord) (hMounted : a.mounted = true) :
    (step a (ChatEvent.feedInsert r)).chat.messages = a.chat.messages ++ [r] ∧
    (step a (ChatEvent.feedInsert r)).chat.messages.length = a.chat.messages.length + 1 ∧
    (step a (ChatEvent.feedInsert r)).chat.messages.take a.chat.messages.length
      = a.chat.messages ∧
    (step a (ChatEvent.feedInsert r)).chat.messages.getLast? = some r ∧
    ((step a (ChatEvent.feedInsert r)).chat.messages.filter (fun m => decide (m.id = r.id))).length
      = (a.chat.messages.filter (fun m => decide (m.id = r.id))).length + 1 ∧
    step a (ChatEvent.feedInsert r)
      = { a with chat := { a.chat with messages := a.chat.messages ++ [r] } } := by
  have h : step a (ChatEvent.feedInsert r)
      = { a with chat := { a.chat with messages := a.chat.messages ++ [r] } } := by
    simp [step, hMounted, appendInsert]
  rw [h]
  simp [List.filter_append]

/-- Witness of C10: the same insert event delivered twice after mount leaves
two entries with the same id. -/
theorem feedInsert_appends_witness :
    (step (step mount (ChatEvent.feedInsert feedRecord))
        (ChatEvent.feedInsert feedRecord)).chat.messages = [feedRecord] ++ [feedRecord] :=
  (feedInsert_appends (step mount (ChatEvent.feedInsert feedRecord)) feedRecord rfl).1

end Demiochat
